import Mathlib

/-!
Shallow embedding of the holster retry/backoff core and of the cancel
context wrapper.  The repository ships only the tests of the retry package
(`retry/retry_test.go`); the engine itself (`Until`, the backoff policies,
the async registry) is therefore modelled from the specification, with its
behaviour pinned by the repository's own tests wherever they decide a point
(`TestUntilAttempts`, `TestUntilExponential`, `TestUntilStopped`,
`TestAsync`, `TestBackOffNew`).  Durations are modelled as rationals (Go
uses `time.Duration` nanoseconds and a `float64` factor); wall-clock
cancellation is abstracted into a schedule telling, for each attempt,
whether the cancellation signal fires during the backoff wait that follows
that attempt.
-/

namespace retry

/-- Reason classifies why the retry loop gave up: the cancellation signal
fired, the policy's attempt budget ran out, or the work function wrapped
its error with `Stop`.  Mirrors the three `retry` error reasons exercised
by the tests. -/
inductive Reason where
  | Cancelled
  | AttemptsExhausted
  | Stopped
deriving DecidableEq

/-- Err is the classified retry error (`retry.Err`): the attempt on which
the loop stopped, the reason, and the causing work-function error. -/
structure Err (ε : Type) where
  Attempts : Nat
  Reason : Reason
  Cause : ε
deriving DecidableEq

/-- WorkErr is the outcome a failing work function hands back: a plain
retryable error, or one wrapped by the `Stop` constructor. -/
inductive WorkErr (ε : Type) where
  | plain (e : ε)
  | stop (e : ε)
deriving DecidableEq

/-- Stop marks a work-function error as non-retryable (`retry.Stop`). -/
def Stop {ε : Type} (e : ε) : WorkErr ε := WorkErr.stop e

/-- ExponentialBackOff configuration plus its internal mutable retry
counter.  Modelled from the spec: fields `Min`, `Max`, `Factor` and an
optional cap `Attempts` (0 = unbounded); the counter lives on the same
value, as the spec's design notes say of the source ("attaching a mutable
retry counter directly to a backoff configuration"). -/
structure ExponentialBackOff where
  Min : ℚ
  Max : ℚ
  Factor : ℚ
  Attempts : Nat := 0
  retries : Nat := 0
deriving DecidableEq

/-- BackOff is a policy state: fixed-delay `Interval` (unbounded),
fixed-delay `Attempts` with a cap, or `ExponentialBackOff`; every variant
carries its own retry counter. -/
inductive BackOff where
  | interval (i : ℚ) (retries : Nat)
  | attempts (n : Nat) (i : ℚ) (retries : Nat)
  | exponential (b : ExponentialBackOff)
deriving DecidableEq

/-- Interval constructs the fixed-delay, never-exhausting policy
(`retry.Interval`). -/
def Interval (i : ℚ) : BackOff := BackOff.interval i 0

/-- Attempts constructs the fixed-delay policy with attempt cap `n`
(`retry.Attempts`). -/
def Attempts (n : Nat) (i : ℚ) : BackOff := BackOff.attempts n i 0

/-- Next advances a policy: it bumps the internal counter and yields the
delay before the next attempt, the exhaustion flag, and the updated policy
state.  Modelled from the spec (delay of the exponential policy for attempt
k is min (Max, Min * Factor ^ k); `Interval` never exhausts), with the
exhaustion boundaries pinned by the repository's tests: the `Attempts n`
policy exhausts on its n-th call (`TestUntilAttempts` reports attempt 10
for cap 10), while `ExponentialBackOff` with cap n exhausts only once the
counter strictly exceeds n (`TestUntilExponential` reports attempt 11 for
cap 10). -/
def BackOff.next : BackOff → ℚ × Bool × BackOff
  | BackOff.interval i r => (i, false, BackOff.interval i (r + 1))
  | BackOff.attempts n i r => (i, decide (n ≤ r + 1), BackOff.attempts n i (r + 1))
  | BackOff.exponential b =>
      (min b.Max (b.Min * b.Factor ^ (b.retries + 1)),
       decide (b.Attempts ≠ 0 ∧ b.Attempts < b.retries + 1),
       BackOff.exponential { b with retries := b.retries + 1 })

/-- NumRetries reads the policy's internal counter (`BackOff.NumRetries`,
used by `TestBackoffRace` on the one shared policy value). -/
def BackOff.numRetries : BackOff → Nat
  | BackOff.interval _ r => r
  | BackOff.attempts _ _ r => r
  | BackOff.exponential b => b.retries

/-- New returns a copy of the exponential policy.  Modelled from the test
`TestBackOffNew`, which asserts that the copy equals the original, counter
included. -/
def ExponentialBackOff.New (b : ExponentialBackOff) : ExponentialBackOff := b

/-- RunResult records one terminated run of the retry loop: `result` is
`none` on success or the classified error otherwise, `calls` is the number
of work-function invocations made, and `slept` the total backoff delay
waited out. -/
structure RunResult (ε : Type) where
  result : Option (Err ε)
  calls : Nat
  slept : ℚ
deriving DecidableEq

/-- Modelled from the spec: one step of the retry loop (`retry.Until`) per
attempt k — invoke the work function, return on success, terminate at once
on a stop-wrapped error, otherwise consult the policy; if exhausted report
it, else wait out the delay unless the cancellation schedule fires during
this wait.  `fuel` bounds the recursion (the Go loop may run forever);
`none` means the fuel ran out with the loop still going. -/
def untilAux {ε : Type} (cancelled : Nat → Bool) (f : Nat → Option (WorkErr ε)) :
    Nat → BackOff → Nat → ℚ → Option (RunResult ε)
  | 0, _, _, _ => none
  | fuel + 1, bo, k, slept =>
    match f k with
    | none => some ⟨none, k, slept⟩
    | some (WorkErr.stop e) => some ⟨some ⟨k, Reason.Stopped, e⟩, k, slept⟩
    | some (WorkErr.plain e) =>
      match bo.next with
      | (delay, exhausted, bo2) =>
        if exhausted then some ⟨some ⟨k, Reason.AttemptsExhausted, e⟩, k, slept⟩
        else if cancelled k then some ⟨some ⟨k, Reason.Cancelled, e⟩, k, slept⟩
        else untilAux cancelled f fuel bo2 (k + 1) (slept + delay)

/-- Until runs the retry loop from attempt 1 with a fresh sleep tally
(`retry.Until ctx backOff f`, the cancellable context abstracted into the
per-wait cancellation schedule). -/
def Until {ε : Type} (cancelled : Nat → Bool) (bo : BackOff)
    (f : Nat → Option (WorkErr ε)) (fuel : Nat) : Option (RunResult ε) :=
  untilAux cancelled f fuel bo 1 0

/-- Before any policy or cancellation question, attempt k with a
stop-wrapped error ends the loop at once, leaving the call count at k and
the sleep tally untouched. -/
lemma untilAux_stop {ε : Type} (cancelled : Nat → Bool) (f : Nat → Option (WorkErr ε))
    (e : ε) (bo : BackOff) (k : Nat) (slept : ℚ) (fuel : Nat)
    (h : f k = some (WorkErr.stop e)) :
    untilAux cancelled f (fuel + 1) bo k slept
      = some ⟨some ⟨k, Reason.Stopped, e⟩, k, slept⟩ := by
  simp [untilAux, h]

/-- Attempt k succeeding ends the loop at once with a `none` result, call
count k, and the sleep tally untouched. -/
lemma untilAux_success {ε : Type} (cancelled : Nat → Bool) (f : Nat → Option (WorkErr ε))
    (bo : BackOff) (k : Nat) (slept : ℚ) (fuel : Nat) (h : f k = none) :
    untilAux cancelled f (fuel + 1) bo k slept = some ⟨none, k, slept⟩ := by
  simp [untilAux, h]

/-- Any classified error emerging from the loop carries an attempt count no
smaller than the attempt the loop was started on. -/
lemma untilAux_le_attempts {ε : Type} (cancelled : Nat → Bool) (f : Nat → Option (WorkErr ε)) :
    ∀ (fuel : Nat) (bo : BackOff) (k : Nat) (slept : ℚ) (res : RunResult ε) (er : Err ε),
      untilAux cancelled f fuel bo k slept = some res → res.result = some er →
        k ≤ er.Attempts := by
  intro fuel
  induction fuel with
  | zero =>
    intro bo k slept res er h _
    simp [untilAux] at h
  | succ fuel ih =>
    intro bo k slept res er h hr
    rw [untilAux] at h
    rcases hnext : bo.next with ⟨d, ex, bo2⟩
    rw [hnext] at h
    cases hf : f k with
    | none =>
      rw [hf] at h
      simp at h
      rw [← h] at hr
      simp at hr
    | some w =>
      cases w with
      | stop e =>
        rw [hf] at h
        simp at h
        rw [← h] at hr
        simp at hr
        cases hr
        simp
      | plain e =>
        rw [hf] at h
        simp at h
        cases ex with
        | true =>
          simp at h
          rw [← h] at hr
          simp at hr
          cases hr
          simp
        | false =>
          simp at h
          cases hc : cancelled k with
          | true =>
            rw [hc] at h
            simp at h
            rw [← h] at hr
            simp at hr
            cases hr
            simp
          | false =>
            rw [hc] at h
            simp at h
            have := ih bo2 (k + 1) (slept + d) res er h hr
            omega

/-- Running from attempt r + 1 with the `attempts n` policy whose counter
already stands at r, an always-plain-failing work function and a
cancellation signal that never fires drive the loop to exhaustion exactly
on attempt n. -/
lemma untilAux_attempts_run {ε : Type} (e : Nat → ε) (cancelled : Nat → Bool)
    (hc : ∀ j, cancelled j = false) (n : Nat) (d : ℚ) :
    ∀ (fuel r : Nat) (slept : ℚ), r + 1 ≤ n → n - (r + 1) < fuel →
      ∃ s, untilAux cancelled (fun k => some (WorkErr.plain (e k))) fuel
          (BackOff.attempts n d r) (r + 1) slept
        = some ⟨some ⟨n, Reason.AttemptsExhausted, e n⟩, n, s⟩ := by
  intro fuel
  induction fuel with
  | zero =>
    intro r slept h1 h2
    omega
  | succ fuel ih =>
    intro r slept h1 h2
    rw [untilAux]
    by_cases hn : n ≤ r + 1
    · have hrn : r + 1 = n := by omega
      refine ⟨slept, ?_⟩
      simp [BackOff.next, hn, hrn]
    · simp only [BackOff.next]
      simp [hn, hc (r + 1)]
      exact ih (r + 1) (slept + d) (by omega) (by omega)

/-- Running from attempt r + 1 with the exponential policy capped at m ≥ 1
and counter already at r, an always-plain-failing work function and a
cancellation signal that never fires drive the loop to exhaustion exactly
on attempt m + 1 (the counter must strictly exceed the cap). -/
lemma untilAux_exponential_run {ε : Type} (e : Nat → ε) (cancelled : Nat → Bool)
    (hc : ∀ j, cancelled j = false) (Mi Ma F : ℚ) (m : Nat) (hm : 1 ≤ m) :
    ∀ (fuel r : Nat) (slept : ℚ), r ≤ m → m - r < fuel →
      ∃ s, untilAux cancelled (fun k => some (WorkErr.plain (e k))) fuel
          (BackOff.exponential ⟨Mi, Ma, F, m, r⟩) (r + 1) slept
        = some ⟨some ⟨m + 1, Reason.AttemptsExhausted, e (m + 1)⟩, m + 1, s⟩ := by
  intro fuel
  induction fuel with
  | zero =>
    intro r slept h1 h2
    omega
  | succ fuel ih =>
    intro r slept h1 h2
    rw [untilAux]
    by_cases hr : m < r + 1
    · have hrm : r = m := by omega
      refine ⟨slept, ?_⟩
      have hm0 : m ≠ 0 := by omega
      simp [BackOff.next, hr, hrm, hm0]
    · simp only [BackOff.next]
      simp [hr, hc (r + 1)]
      exact ih (r + 1) (slept + min Ma (Mi * F ^ (r + 1))) (by omega) (by omega)

/-- A loop driven by an `interval` policy can end in success, a stop, or a
cancellation, but never in attempt exhaustion, whatever the work function,
the start attempt, the counter, or the fuel. -/
lemma untilAux_interval_no_exhaust {ε : Type} (cancelled : Nat → Bool)
    (f : Nat → Option (WorkErr ε)) (i : ℚ) :
    ∀ (fuel r k : Nat) (slept : ℚ) (res : RunResult ε) (er : Err ε),
      untilAux cancelled f fuel (BackOff.interval i r) k slept = some res →
      res.result = some er → er.Reason ≠ Reason.AttemptsExhausted := by
  intro fuel
  induction fuel with
  | zero =>
    intro r k slept res er h _
    simp [untilAux] at h
  | succ fuel ih =>
    intro r k slept res er h hr
    rw [untilAux] at h
    cases hf : f k with
    | none =>
      rw [hf] at h
      simp at h
      rw [← h] at hr
      simp at hr
    | some w =>
      cases w with
      | stop e =>
        rw [hf] at h
        simp at h
        rw [← h] at hr
        simp at hr
        cases hr
        simp
      | plain e =>
        rw [hf] at h
        simp only [BackOff.next] at h
        simp at h
        cases hc : cancelled k with
        | true =>
          rw [hc] at h
          simp at h
          rw [← h] at hr
          simp at hr
          cases hr
          simp
        | false =>
          rw [hc] at h
          simp at h
          exact ih (r + 1) (k + 1) (slept + i) res er h hr

/-- C1 (amended): with an always-plain-failing work function and no
cancellation, `Attempts n d` (n ≥ 1) exhausts with `Attempts = n` and the
last error as cause; `ExponentialBackOff` with cap m ≥ 1 exhausts with
`Attempts = m + 1` — one more than its cap, as the repository's
`TestUntilExponential` asserts ("on attempt '11'" for cap 10) — and an
`interval` policy never terminates with `AttemptsExhausted`. -/
theorem untilAttemptCaps {ε : Type} (e : Nat → ε) (cancelled : Nat → Bool)
    (hc : ∀ j, cancelled j = false) (n m : Nat) (hn : 1 ≤ n) (hm : 1 ≤ m)
    (d Mi Ma F i : ℚ) (fuel1 fuel2 : Nat) (h1 : n ≤ fuel1) (h2 : m + 1 ≤ fuel2) :
    (∃ s, Until cancelled (Attempts n d) (fun k => some (WorkErr.plain (e k))) fuel1
        = some ⟨some ⟨n, Reason.AttemptsExhausted, e n⟩, n, s⟩)
    ∧ (∃ s, Until cancelled (BackOff.exponential ⟨Mi, Ma, F, m, 0⟩)
          (fun k => some (WorkErr.plain (e k))) fuel2
        = some ⟨some ⟨m + 1, Reason.AttemptsExhausted, e (m + 1)⟩, m + 1, s⟩)
    ∧ (∀ (f : Nat → Option (WorkErr ε)) (fuel r k : Nat) (slept : ℚ)
          (res : RunResult ε) (er : Err ε),
        untilAux cancelled f fuel (BackOff.interval i r) k slept = some res →
        res.result = some er → er.Reason ≠ Reason.AttemptsExhausted) := by
  refine ⟨?_, ?_, ?_⟩
  · have h := untilAux_attempts_run e cancelled hc n d fuel1 0 0 (by omega) (by omega)
    simpa [Until, Attempts] using h
  · have h := untilAux_exponential_run e cancelled hc Mi Ma F m hm fuel2 0 0
      (by omega) (by omega)
    simpa [Until] using h
  · intro f fuel r k slept res er h hr
    exact untilAux_interval_no_exhaust cancelled f i fuel r k slept res er h hr

/-- Witness for C1 at the test's inputs: `Attempts 10` exhausts on attempt
10 and the exponential policy capped at 10 exhausts on attempt 11. -/
theorem untilAttemptCaps_witness :
    (∃ s, Until (fun _ => false) (Attempts 10 10) (fun k => some (WorkErr.plain k)) 10
        = some ⟨some ⟨10, Reason.AttemptsExhausted, 10⟩, 10, s⟩)
    ∧ (∃ s, Until (fun _ => false) (BackOff.exponential ⟨1, 100, 2, 10, 0⟩)
          (fun k => some (WorkErr.plain k)) 11
        = some ⟨some ⟨10 + 1, Reason.AttemptsExhausted, 10 + 1⟩, 10 + 1, s⟩)
    ∧ (∀ (f : Nat → Option (WorkErr Nat)) (fuel r k : Nat) (slept : ℚ)
          (res : RunResult Nat) (er : Err Nat),
        untilAux (fun _ => false) f fuel (BackOff.interval 10 r) k slept = some res →
        res.result = some er → er.Reason ≠ Reason.AttemptsExhausted) :=
  untilAttemptCaps (fun k => k) (fun _ => false) (fun _ => rfl) 10 10
    (by decide) (by decide) 10 1 100 2 10 10 11 (by decide) (by decide)

/-- Counterexample for C1 as stated: the exponential policy capped at 10,
driven by an always-plain-failing work function with no cancellation, ends
with `Attempts = 11`, not 10. -/
theorem untilExponentialCapTenNotTen :
    (∃ s, Until (fun _ => false) (BackOff.exponential ⟨1, 100, 2, 10, 0⟩)
          (fun k => some (WorkErr.plain k)) 12
        = some ⟨some ⟨11, Reason.AttemptsExhausted, 11⟩, 11, s⟩)
    ∧ (11 : Nat) ≠ 10 := by
  refine ⟨?_, by decide⟩
  have h := untilAux_exponential_run (fun k => k) (fun _ => false) (fun _ => rfl)
      1 100 2 10 (by omega) 12 0 0 (by omega) (by omega)
  simpa [Until] using h

/-- C3: a stop-wrapped error terminates the loop immediately — from any
attempt k at which the work function returns `Stop e`, the loop ends with
`Err{Attempts := k, Reason := Stopped, Cause := e}` (the cause is the
unwrapped error), making no further call and incurring no further wait
(the call count stays at k and the sleep tally is unchanged); in
particular a stop-wrapped error on the first call yields a result with
`Attempts = 1` and zero delay. -/
theorem untilStopsImmediately {ε : Type} (cancelled : Nat → Bool)
    (f : Nat → Option (WorkErr ε)) (e : ε) :
    (∀ (bo : BackOff) (k : Nat) (slept : ℚ) (fuel : Nat), f k = some (Stop e) →
        untilAux cancelled f (fuel + 1) bo k slept
          = some ⟨some ⟨k, Reason.Stopped, e⟩, k, slept⟩)
    ∧ (f 1 = some (Stop e) → ∀ (bo : BackOff) (fuel : Nat),
        Until cancelled bo f (fuel + 1)
          = some ⟨some ⟨1, Reason.Stopped, e⟩, 1, 0⟩) := by
  constructor
  · intro bo k slept fuel h
    exact untilAux_stop cancelled f e bo k slept fuel h
  · intro h bo fuel
    exact untilAux_stop cancelled f e bo 1 0 fuel h

/-- Witness for C3 at a concrete input: a work function that stop-wraps
error 7 on every call, run under the `Attempts 10` policy, stops on
attempt 1 with cause 7 and no sleep. -/
theorem untilStopsImmediately_witness :
    Until (fun _ => false) (Attempts 10 10) (fun _ => some (Stop (7 : Nat))) 4
      = some ⟨some ⟨1, Reason.Stopped, 7⟩, 1, 0⟩ :=
  (untilStopsImmediately (fun _ => false) (fun _ => some (Stop (7 : Nat))) 7).2 rfl
    (Attempts 10 10) 3

/-- C5: success ends the loop — if the work function returns no error on
the first attempt, `Until` returns a `none` result having made exactly one
call and slept zero; and more generally from any attempt k a `none` return
terminates the loop right there (call count k, sleep tally unchanged), so
no further invocation ever follows a success, and the zero sleep tally on
the first attempt shows no sleep precedes it. -/
theorem untilSuccessOnce {ε : Type} (cancelled : Nat → Bool)
    (f : Nat → Option (WorkErr ε)) :
    (∀ (bo : BackOff) (k : Nat) (slept : ℚ) (fuel : Nat), f k = none →
        untilAux cancelled f (fuel + 1) bo k slept = some ⟨none, k, slept⟩)
    ∧ (f 1 = none → ∀ (bo : BackOff) (fuel : Nat),
        Until cancelled bo f (fuel + 1) = some ⟨none, 1, 0⟩) := by
  constructor
  · intro bo k slept fuel h
    exact untilAux_success cancelled f bo k slept fuel h
  · intro h bo fuel
    exact untilAux_success cancelled f bo 1 0 fuel h

/-- Witness for C5 at a concrete input: an always-succeeding work function
under `Interval 10` returns success on attempt 1 with zero slept time. -/
theorem untilSuccessOnce_witness :
    Until (fun _ => false) (Interval 10) (fun _ => (none : Option (WorkErr Nat))) 4
      = some ⟨none, 1, 0⟩ :=
  (untilSuccessOnce (fun _ => false) (fun _ => (none : Option (WorkErr Nat)))).2 rfl
    (Interval 10) 3

/-- Iterate advances a policy state through j consecutive `next` calls. -/
def BackOff.iterate (bo : BackOff) : Nat → BackOff
  | 0 => bo
  | j + 1 => (bo.iterate j).next.2.2

/-- DelayAt is the delay handed out by the (j + 1)-st `next` call counting
from policy state `bo` — the delay waited after attempt j + 1 of a loop
that starts from `bo`. -/
def BackOff.delayAt (bo : BackOff) (j : Nat) : ℚ := (bo.iterate j).next.1

/-- Iterating `next` on an exponential policy only steps its counter. -/
lemma exponential_iterate (Mi Ma F : ℚ) (m r : Nat) :
    ∀ j, (BackOff.exponential ⟨Mi, Ma, F, m, r⟩).iterate j
      = BackOff.exponential ⟨Mi, Ma, F, m, r + j⟩ := by
  intro j
  induction j with
  | zero => simp [BackOff.iterate]
  | succ j ih =>
    simp [BackOff.iterate, ih, BackOff.next]
    omega

/-- C4 (amended): for a fresh exponential policy the delay waited after
attempt k = j + 1 equals min (Max, Min * Factor ^ k), and whenever
Factor ≥ 1 and Min ≥ 0 this delay is non-decreasing from each attempt to
the next (constant at Max once clamped); for Factor < 1 the original
unconditional monotonicity fails. -/
theorem exponentialDelayFormula (Mi Ma F : ℚ) (m j : Nat) :
    (BackOff.exponential ⟨Mi, Ma, F, m, 0⟩).delayAt j = min Ma (Mi * F ^ (j + 1))
    ∧ (1 ≤ F → 0 ≤ Mi →
        (BackOff.exponential ⟨Mi, Ma, F, m, 0⟩).delayAt j
          ≤ (BackOff.exponential ⟨Mi, Ma, F, m, 0⟩).delayAt (j + 1)) := by
  have hform : ∀ i, (BackOff.exponential ⟨Mi, Ma, F, m, 0⟩).delayAt i
      = min Ma (Mi * F ^ (i + 1)) := by
    intro i
    rw [BackOff.delayAt, exponential_iterate]
    simp [BackOff.next]
  refine ⟨hform j, ?_⟩
  intro hF hMi
  rw [hform j, hform (j + 1)]
  refine min_le_min le_rfl ?_
  refine mul_le_mul_of_nonneg_left ?_ hMi
  exact pow_le_pow_right₀ hF (by omega)

/-- Witness for C4 at the test's configuration Min = 1, Max = 100,
Factor = 2: the first delay is min (100, 1 * 2 ^ 1) and the delays after
attempts 1 and 2 are non-decreasing. -/
theorem exponentialDelayFormula_witness :
    (BackOff.exponential ⟨1, 100, 2, 0, 0⟩).delayAt 0 = min 100 (1 * 2 ^ (0 + 1))
    ∧ (BackOff.exponential ⟨1, 100, 2, 0, 0⟩).delayAt 0
        ≤ (BackOff.exponential ⟨1, 100, 2, 0, 0⟩).delayAt 1 :=
  ⟨(exponentialDelayFormula 1 100 2 0 0).1,
   (exponentialDelayFormula 1 100 2 0 0).2 (by norm_num) (by norm_num)⟩

/-- Counterexample for C4 as stated: with Min = 4, Max = 100 and
Factor = 1/2 the delay after attempt 2 (namely 1) is smaller than the delay
after attempt 1 (namely 2) while neither is clamped at Max, so the delay of
an arbitrary exponential configuration is not non-decreasing. -/
theorem exponentialDelayNotMonotone :
    ¬ ((BackOff.exponential ⟨4, 100, 1 / 2, 0, 0⟩).delayAt 0
        ≤ (BackOff.exponential ⟨4, 100, 1 / 2, 0, 0⟩).delayAt 1) := by
  simp [BackOff.delayAt, BackOff.iterate, BackOff.next]
  norm_num [min_def]

/-- C6: every classified error `Until` produces — for any policy, any work
function, any cancellation schedule and any reason — has `Attempts ≥ 1`. -/
theorem untilAttemptsAtLeastOne {ε : Type} (cancelled : Nat → Bool)
    (f : Nat → Option (WorkErr ε)) (bo : BackOff) (fuel : Nat)
    (res : RunResult ε) (er : Err ε)
    (h : Until cancelled bo f fuel = some res) (hr : res.result = some er) :
    1 ≤ er.Attempts :=
  untilAux_le_attempts cancelled f fuel bo 1 0 res er h hr

/-- Witness for C6 at a concrete input: the stop-on-first-call run ends
with a classified error whose `Attempts` is at least 1. -/
theorem untilAttemptsAtLeastOne_witness :
    1 ≤ (Err.mk 1 Reason.Stopped (7 : Nat)).Attempts :=
  untilAttemptsAtLeastOne (fun _ => false) (fun _ => some (Stop (7 : Nat)))
    (Attempts 10 10) 4 ⟨some ⟨1, Reason.Stopped, 7⟩, 1, 0⟩ ⟨1, Reason.Stopped, 7⟩ rfl rfl

/-- Modelled from the spec's design notes: the source keeps one mutable
retry counter on the policy value itself, so two retry loops A and B that
share that value both drive `next` on the same state.  This folds a given
interleaving (true = A calls `next`, false = B calls `next`) over the
shared state and collects the delays each loop observes. -/
def sharedDelays : BackOff → List Bool → List ℚ × List ℚ
  | _, [] => ([], [])
  | bo, turn :: rest =>
    match bo.next with
    | (d, _, bo2) =>
      match sharedDelays bo2 rest with
      | (da, db) => if turn then (d :: da, db) else (da, d :: db)

/-- C7 evaluated at the failing input: sharing one exponential policy value
(Min = 1, Max = 100, Factor = 2) between two loops leaks counter
increments — after loop A's single `next`, loop B's first delay is 4
(Min * Factor ^ 2) instead of the 2 (Min * Factor ^ 1) an independent
counter would give — and `Until` does not restart the counter either: run
on an `attempts` policy with cap 2 whose counter already stands at 2, it
exhausts on attempt 1 instead of attempt 2. -/
theorem sharedCounterLeaks :
    ((sharedDelays (BackOff.exponential ⟨1, 100, 2, 0, 0⟩) [true, false]).2 = [4]
      ∧ (sharedDelays (BackOff.exponential ⟨1, 100, 2, 0, 0⟩) [false]).2 = [2]
      ∧ ([4] : List ℚ) ≠ [2])
    ∧ (Until (fun _ => false) (BackOff.attempts 2 1 2) (fun k => some (WorkErr.plain k)) 5
        = some ⟨some ⟨1, Reason.AttemptsExhausted, 1⟩, 1, 0⟩
      ∧ (1 : Nat) ≠ 2) := by
  refine ⟨⟨?_, ?_, by norm_num⟩, rfl, by decide⟩
  · simp [sharedDelays, BackOff.next]
    norm_num
  · simp [sharedDelays, BackOff.next]
    norm_num

/-- Future is a registry entry (`retry.Future`): the operation key, the
last observed error, whether its loop is still running, and an allocation
id standing in for Go pointer identity of the Future. -/
structure Future (ε : Type) where
  Key : String
  Err : Option ε
  Retrying : Bool
  id : Nat
deriving DecidableEq

/-- RetryAsync is the async registry: the tracked entries and the next
allocation id.  Fresh entries are put at the head; a Go map carries no
order, and none of the registry's observable behaviour depends on it. -/
structure RetryAsync (ε : Type) where
  entries : List (Future ε)
  nextId : Nat

/-- NewRetryAsync is the empty registry (`retry.NewRetryAsync`). -/
def NewRetryAsync (ε : Type) : RetryAsync ε := ⟨[], 0⟩

/-- Lookup finds the tracked entry registered under a key. -/
def RetryAsync.lookup {ε : Type} (r : RetryAsync ε) (key : String) : Option (Future ε) :=
  r.entries.find? (fun f => f.Key == key)

/-- Modelled from the spec: `Async` returns the existing Future untouched
when one is registered under `key` and still `Retrying`, starting no new
work; otherwise it registers a fresh running Future (replacing a completed
entry of the same key, appending a brand-new key at the head) and starts
the retry loop.  The returned Bool reports whether a new loop was started;
the backoff argument only seeds the spawned loop and plays no part in the
registry structure. -/
def RetryAsync.Async {ε : Type} (r : RetryAsync ε) (key : String) (bo : BackOff) :
    RetryAsync ε × Future ε × Bool :=
  match r.lookup key with
  | some f =>
    if f.Retrying then (r, f, false)
    else
      (⟨r.entries.map (fun g => if g.Key == key then ⟨key, none, true, r.nextId⟩ else g),
        r.nextId + 1⟩,
       ⟨key, none, true, r.nextId⟩, true)
  | none =>
    (⟨⟨key, none, true, r.nextId⟩ :: r.entries, r.nextId + 1⟩,
     ⟨key, none, true, r.nextId⟩, true)

/-- Len counts the tracked entries (`RetryAsync.Len`). -/
def RetryAsync.Len {ε : Type} (r : RetryAsync ε) : Nat := r.entries.length

/-- Errs snapshots the current `Err` of every tracked Future
(`RetryAsync.Errs`). -/
def RetryAsync.Errs {ε : Type} (r : RetryAsync ε) : List (Option ε) :=
  r.entries.map Future.Err

/-- C8: while the Future registered under a key is still `Retrying`,
`Async` with that key returns the identical Future (same allocation id)
and the unchanged registry, and starts no new loop; with a key that has no
live entry it registers a fresh running Future under that key, starts a
new loop, and grows the registry by one. -/
theorem asyncDedup {ε : Type} (r : RetryAsync ε) (key : String) (bo bo2 : BackOff) :
    (∀ f, r.lookup key = some f → f.Retrying = true → r.Async key bo = (r, f, false))
    ∧ (r.lookup key = none →
        (r.Async key bo2).2.2 = true
        ∧ (r.Async key bo2).2.1 = ⟨key, none, true, r.nextId⟩
        ∧ (r.Async key bo2).1.lookup key = some (r.Async key bo2).2.1
        ∧ (r.Async key bo2).1.Len = r.Len + 1) := by
  constructor
  · intro f hf hret
    simp [RetryAsync.Async, hf, hret]
  · intro hnone
    have hn2 : List.find? (fun f => f.Key == key) r.entries = none := by
      simpa [RetryAsync.lookup] using hnone
    refine ⟨?_, ?_, ?_, ?_⟩ <;>
      simp [RetryAsync.Async, RetryAsync.lookup, hn2, List.find?, RetryAsync.Len]

/-- Witness for C8 at concrete inputs: a registry holding a retrying entry
for key "one" hands back that very entry without change, and the empty
registry registers a fresh running Future for key "two". -/
theorem asyncDedup_witness :
    (RetryAsync.mk [Future.mk "one" (none : Option Nat) true 0] 1).Async "one" (Interval 10)
      = (⟨[⟨"one", none, true, 0⟩], 1⟩, ⟨"one", none, true, 0⟩, false)
    ∧ (((NewRetryAsync Nat).Async "two" (Interval 10)).2.2 = true
        ∧ ((NewRetryAsync Nat).Async "two" (Interval 10)).2.1 = ⟨"two", none, true, 0⟩
        ∧ ((NewRetryAsync Nat).Async "two" (Interval 10)).1.lookup "two"
            = some (((NewRetryAsync Nat).Async "two" (Interval 10)).2.1)
        ∧ ((NewRetryAsync Nat).Async "two" (Interval 10)).1.Len = (NewRetryAsync Nat).Len + 1) :=
  ⟨(asyncDedup (RetryAsync.mk [Future.mk "one" (none : Option Nat) true 0] 1) "one"
      (Interval 10) (Interval 10)).1 ⟨"one", none, true, 0⟩ rfl rfl,
   (asyncDedup (NewRetryAsync Nat) "two" (Interval 10) (Interval 10)).2 rfl⟩

/-- C9: `Errs` is a per-entry snapshot — it has exactly `Len` elements and
contains the current `Err` of every tracked Future (later updates build a
new registry value and cannot touch a list already taken) — and after
registering four distinct keys on the empty registry, all four loops still
running, `Len` is 4 and every entry is `Retrying`. -/
theorem registrySnapshot {ε : Type} (r : RetryAsync ε) (k1 k2 k3 k4 : String)
    (bo : BackOff) (h12 : k1 ≠ k2) (h13 : k1 ≠ k3) (h14 : k1 ≠ k4)
    (h23 : k2 ≠ k3) (h24 : k2 ≠ k4) (h34 : k3 ≠ k4) :
    r.Errs.length = r.Len
    ∧ (∀ f, f ∈ r.entries → f.Err ∈ r.Errs)
    ∧ (((((NewRetryAsync ε).Async k1 bo).1.Async k2 bo).1.Async k3 bo).1.Async k4 bo).1.Len = 4
    ∧ (∀ f, f ∈ (((((NewRetryAsync ε).Async k1 bo).1.Async k2 bo).1.Async k3 bo).1.Async k4 bo).1.entries
        → f.Retrying = true) := by
  have e12 : (k1 == k2) = false := by simp [h12]
  have e13 : (k1 == k3) = false := by simp [h13]
  have e14 : (k1 == k4) = false := by simp [h14]
  have e23 : (k2 == k3) = false := by simp [h23]
  have e24 : (k2 == k4) = false := by simp [h24]
  have e34 : (k3 == k4) = false := by simp [h34]
  refine ⟨?_, ?_, ?_, ?_⟩
  · simp [RetryAsync.Errs, RetryAsync.Len]
  · intro f hf
    exact List.mem_map_of_mem Future.Err hf
  · simp [RetryAsync.Async, RetryAsync.lookup, NewRetryAsync, List.find?,
      e12, e13, e14, e23, e24, e34, RetryAsync.Len]
  · intro f hf
    simp [RetryAsync.Async, RetryAsync.lookup, NewRetryAsync, List.find?,
      e12, e13, e14, e23, e24, e34] at hf
    rcases hf with h | h | h | h <;> rw [h]

/-- Witness for C9 at the test's keys "one", "two", "thr", "for": the
four-key registry has length 4 with every entry retrying, and the snapshot
facts hold for it. -/
theorem registrySnapshot_witness :
    ((NewRetryAsync Nat).Errs.length = (NewRetryAsync Nat).Len
    ∧ (∀ f, f ∈ (NewRetryAsync Nat).entries → f.Err ∈ (NewRetryAsync Nat).Errs)
    ∧ (((((NewRetryAsync Nat).Async "one" (Interval 10)).1.Async "two" (Interval 10)).1.Async
          "thr" (Interval 10)).1.Async "for" (Interval 10)).1.Len = 4
    ∧ (∀ f, f ∈ (((((NewRetryAsync Nat).Async "one" (Interval 10)).1.Async "two"
          (Interval 10)).1.Async "thr" (Interval 10)).1.Async "for" (Interval 10)).1.entries
        → f.Retrying = true)) :=
  registrySnapshot (NewRetryAsync Nat) "one" "two" "thr" "for" (Interval 10)
    (by decide) (by decide) (by decide) (by decide) (by decide) (by decide)

end retry

namespace cancel

/-- CtxErr is a Go context error value: context.Canceled or
context.DeadlineExceeded. -/
inductive CtxErr where
  | canceled
  | deadlineExceeded
deriving DecidableEq

/-- GoContext models the observable face of a Go `context.Context`:
optional deadline, whether the Done channel is closed, the `Err` value,
and `Value` lookup (keys and values abstracted to naturals). -/
structure GoContext where
  deadline : Option ℚ
  doneClosed : Bool
  err : Option CtxErr
  value : Nat → Option Nat

/-- Background models `context.Background()`: no deadline, never done, no
values. -/
def Background : GoContext :=
  ⟨none, false, none, fun _ => none⟩

/-- WithCancelChild is the observable face of the `context.WithCancel`
child, given its parent and whether its cancel function has run: deadline
and values delegate to the parent; Done closes once the cancel function has
run or the parent is done; Err is `context.Canceled` after cancellation and
otherwise the parent's error once the parent is done.  (Go keeps whichever
error was set first when both happen; the claim does not depend on that
tie, so the child's own cancellation is given priority here.) -/
def WithCancelChild (parent : GoContext) (cancelled : Bool) : GoContext :=
  ⟨parent.deadline,
   cancelled || parent.doneClosed,
   if cancelled then some CtxErr.canceled
   else if parent.doneClosed then parent.err else none,
   parent.value⟩

/-- cancelCtx bundles the `context.WithCancel`-derived context with its
cancel function (modelled by the flag the cancel function sets), exactly
the two fields of `cancel.cancelCtx`. -/
structure cancelCtx where
  parent : GoContext
  cancelled : Bool

/-- New models `cancel.New`: a nil argument is replaced by
`context.Background()`, then the handle wraps the `WithCancel` derivation
of that parent, not yet cancelled. -/
def New (ctx : Option GoContext) : cancelCtx :=
  ⟨ctx.getD Background, false⟩

/-- Cancel runs the stored cancel function (`(c *cancelCtx) Cancel()`). -/
def cancelCtx.Cancel (c : cancelCtx) : cancelCtx :=
  ⟨c.parent, true⟩

/-- Deadline delegates to the derived context
(`(c *cancelCtx) Deadline()`). -/
def cancelCtx.Deadline (c : cancelCtx) : Option ℚ :=
  (WithCancelChild c.parent c.cancelled).deadline

/-- DoneClosed tells whether the derived context's Done channel is closed
(`(c *cancelCtx) Done()`). -/
def cancelCtx.DoneClosed (c : cancelCtx) : Bool :=
  (WithCancelChild c.parent c.cancelled).doneClosed

/-- Err delegates to the derived context (`(c *cancelCtx) Err()`). -/
def cancelCtx.Err (c : cancelCtx) : Option CtxErr :=
  (WithCancelChild c.parent c.cancelled).err

/-- Value delegates to the derived context (`(c *cancelCtx) Value(key)`). -/
def cancelCtx.Value (c : cancelCtx) (key : Nat) : Option Nat :=
  (WithCancelChild c.parent c.cancelled).value key

/-- C10: `cancel.New` always yields a handle — a nil context is replaced by
`context.Background()` — whose `Deadline`, `Done`, `Err` and `Value`
delegate to the `context.WithCancel` child of the given parent (deadline
and values are the parent's; Done is closed initially only if the parent's
is; Err initially reports only what the parent state forces), and after
`Cancel()` runs the stored cancel function, `Done()` is closed and `Err()`
is non-nil. -/
theorem newCancelHandle (p : GoContext) (k : Nat) :
    New none = New (some Background)
    ∧ (New (some p)).parent = p
    ∧ (New (some p)).cancelled = false
    ∧ (New (some p)).Deadline = p.deadline
    ∧ (New (some p)).Value k = p.value k
    ∧ (New (some p)).DoneClosed = p.doneClosed
    ∧ (New (some p)).Err = (if p.doneClosed then p.err else none)
    ∧ ((New (some p)).Cancel).DoneClosed = true
    ∧ ((New (some p)).Cancel).Err = some CtxErr.canceled
    ∧ ((New (some p)).Cancel).Err ≠ none := by
  refine ⟨rfl, rfl, rfl, rfl, rfl, ?_, ?_, ?_, ?_, ?_⟩
  · simp [cancelCtx.DoneClosed, WithCancelChild, New]
  · simp [cancelCtx.Err, WithCancelChild, New]
  · simp [cancelCtx.DoneClosed, WithCancelChild, New, cancelCtx.Cancel]
  · simp [cancelCtx.Err, WithCancelChild, New, cancelCtx.Cancel]
  · simp [cancelCtx.Err, WithCancelChild, New, cancelCtx.Cancel]

end cancel
